import Mathlib

/-!
Shallow embedding of `src/repo_migratinator.py`.

External commands (`subprocess.run`) are modelled by an environment `Env`
giving each command an outcome — success, non-zero exit, or executable not
found — together with its captured output streams.  The filesystem is
modelled as the list of entries in the current working directory, which is
the only part of the filesystem the script touches.  `run_command`,
`migrate_repos` and `main` mirror the Python functions of the same names;
the body of the `for repo in repos` loop of `migrate_repos` is factored
out as `migrate_step`.  `sys.exit(1)` is modelled by the `Except.error`
branch carrying the final process state, and a normal return by
`Except.ok`.  Progress narration printed to standard output is not
modelled; the diagnostic lines printed to `sys.stderr` are recorded in
`St.stderrLog`.
-/

/-- An external command invocation: the argument vector and the optional
working directory, as passed to `subprocess.run(command, cwd=cwd)`. -/
structure Cmd where
  args : List String
  cwd : Option String
  deriving DecidableEq, Repr

/-- Outcome of attempting to run one external command: it ran and exited 0
(`ok`), it ran and exited non-zero (`fail`, Python `CalledProcessError`),
or the executable could not be located (`notFound`, Python
`FileNotFoundError`). -/
inductive CmdResult where
  | ok
  | fail
  | notFound
  deriving DecidableEq, Repr

/-- Observable actions of the script, in order: `preClean` is the
`shutil.rmtree` guarded by `os.path.exists` at the top of the loop body,
`exec` is an external command invocation via `run_command`, `cleanup` is
the unconditional `shutil.rmtree(repo_dir)` of step 4. -/
inductive Event where
  | preClean (path : String)
  | exec (c : Cmd)
  | cleanup (path : String)
  deriving DecidableEq, Repr

/-- Process state threaded through the embedding: current-directory
filesystem entries, the trace of actions performed so far, and the lines
written to the standard error stream. -/
structure St where
  fs : List String
  trace : List Event
  stderrLog : List String
  deriving DecidableEq, Repr

/-- Environment modelling the external world: the outcome of each command
and its captured (stdout, stderr) text. -/
structure Env where
  result : Cmd → CmdResult
  out : Cmd → String × String

/-- A single ASCII apostrophe, as used by the Python diagnostic text. -/
def squote : String := String.singleton (Char.ofNat 39)

/-- Python `' '.join(command)`. -/
def joinSpace (l : List String) : String := String.intercalate " " l

/-- The diagnostic printed when the executable is missing
(`FileNotFoundError` branch of `run_command`). -/
def msgNotFound (c : Cmd) : String :=
  "Error: Command " ++ squote ++ c.args.headD "" ++ squote ++
    " not found. Is Git installed and in your PATH?"

/-- The first diagnostic line printed when the command exits non-zero
(`CalledProcessError` branch of `run_command`). -/
def msgFail (c : Cmd) : String :=
  "Error executing command: " ++ joinSpace c.args

/-- Python `s.rstrip('/')`: remove every trailing slash. -/
def rstripSlash (s : String) : String :=
  String.mk ((s.data.reverse.dropWhile (fun c => c == '/')).reverse)

/-- The URL construction `f"{host.rstrip('/')}/{repo}.git"` of
`migrate_repos`. -/
def make_url (host repo : String) : String :=
  rstripSlash host ++ "/" ++ repo ++ ".git"

/-- The local directory name `f"{repo}.git"` for the bare mirror clone. -/
def repo_dir (repo : String) : String := repo ++ ".git"

/-- The name of the directory `git clone` derives from a URL: everything
after the last slash. -/
def lastComponent (s : String) : String :=
  String.mk ((s.data.reverse.takeWhile (fun c => c != '/')).reverse)

/-- Whether a string ends in the path separator `/`. -/
def endsWithSlash (s : String) : Bool :=
  s.data.reverse.head? == some '/'

/-- A repository identifier containing no path separator. -/
def noSlash (repo : String) : Prop := '/' ∉ repo.data

instance (repo : String) : Decidable (noSlash repo) :=
  inferInstanceAs (Decidable ('/' ∉ repo.data))

/-- The step-1 command `["git", "clone", "--mirror", origin_url]`. -/
def cloneCmd (url : String) : Cmd :=
  ⟨["git", "clone", "--mirror", url], none⟩

/-- The step-2 command
`["git", "remote", "set-url", "--push", "origin", dest_url]`, run with
`cwd=repo_dir`. -/
def setUrlCmd (url dir : String) : Cmd :=
  ⟨["git", "remote", "set-url", "--push", "origin", url], some dir⟩

/-- The step-3 command `["git", "push", "--mirror"]`, run with
`cwd=repo_dir`. -/
def pushCmd (dir : String) : Cmd :=
  ⟨["git", "push", "--mirror"], some dir⟩

/-- Filesystem effect of a successfully completed external command: a
mirror clone creates the directory named after the last URL component;
the other git commands used by the script do not change the current
directory listing. -/
def gitEffect (c : Cmd) (fs : List String) : List String :=
  match c.args with
  | [g, cl, mi, url] =>
      if g = "git" ∧ cl = "clone" ∧ mi = "--mirror" then lastComponent url :: fs
      else fs
  | _ => fs

/-- Embedding of `run_command(command, cwd)`: record the invocation; on
exit status 0 apply the command's filesystem effect and return normally;
on `CalledProcessError` or `FileNotFoundError` print the corresponding
stderr diagnostics and `sys.exit(1)` (the `Except.error` branch). -/
def run_command (env : Env) (command : Cmd) (s : St) : Except St St :=
  let s1 : St := { s with trace := s.trace ++ [Event.exec command] }
  match env.result command with
  | CmdResult.ok => Except.ok { s1 with fs := gitEffect command s1.fs }
  | CmdResult.notFound =>
      Except.error { s1 with stderrLog := s1.stderrLog ++ [msgNotFound command] }
  | CmdResult.fail =>
      Except.error { s1 with stderrLog := s1.stderrLog ++
        [msgFail command, "--- STDOUT ---", (env.out command).1,
         "--- STDERR ---", (env.out command).2] }

/-- The guarded pre-clean at the top of the loop body:
`if os.path.exists(repo_dir): shutil.rmtree(repo_dir)`. -/
def preCleanStep (s : St) (d : String) : St :=
  if d ∈ s.fs then
    { s with fs := s.fs.filter (fun p => p != d),
             trace := s.trace ++ [Event.preClean d] }
  else s

/-- One iteration of the `for repo in repos` loop of `migrate_repos`:
pre-clean, mirror clone, remote retarget, optional mirror push, cleanup. -/
def migrate_step (env : Env) (origin_host dest_host : String) (no_push : Bool)
    (repo : String) (s : St) : Except St St :=
  match run_command env (cloneCmd (make_url origin_host repo))
      (preCleanStep s (repo_dir repo)) with
  | Except.error e => Except.error e
  | Except.ok s1 =>
    match run_command env (setUrlCmd (make_url dest_host repo) (repo_dir repo)) s1 with
    | Except.error e => Except.error e
    | Except.ok s2 =>
      match (if no_push then Except.ok s2
             else run_command env (pushCmd (repo_dir repo)) s2) with
      | Except.error e => Except.error e
      | Except.ok s3 =>
          Except.ok { s3 with
            fs := s3.fs.filter (fun p => p != repo_dir repo),
            trace := s3.trace ++ [Event.cleanup (repo_dir repo)] }

/-- Embedding of `migrate_repos(origin_host, dest_host, repos, no_push)`:
iterate `migrate_step` over the repository names, in input order, stopping
at the first `sys.exit`. -/
def migrate_repos (env : Env) (origin_host dest_host : String)
    (repos : List String) (no_push : Bool) (s : St) : Except St St :=
  match repos with
  | [] => Except.ok s
  | r :: rs =>
    match migrate_step env origin_host dest_host no_push r s with
    | Except.ok s1 => migrate_repos env origin_host dest_host rs no_push s1
    | Except.error e => Except.error e

/-- Process exit status: 0 on normal return, 1 for either `sys.exit(1)`
site of `run_command`. -/
def exitCode : Except St St → Nat
  | Except.ok _ => 0
  | Except.error _ => 1

/-- Whether the run returned normally. -/
def isOk : Except St St → Bool
  | Except.ok _ => true
  | Except.error _ => false

/-- The final process state of a run, normal or aborted. -/
def stateOf : Except St St → St
  | Except.ok s => s
  | Except.error s => s

/-- A starting state with the given directory listing, empty trace and
empty stderr. -/
def initSt (fs : List String) : St := ⟨fs, [], []⟩

/-- The values produced by the argument parser of `main`:
`--origin-host`, `--dest-host`, `--repos`, `--no-push`. -/
structure CliArgs where
  origin_host : String
  dest_host : String
  repos : List String
  no_push : Bool

/-- Embedding of `main()` after argument parsing (Lean reserves the name
`main`, hence `cli_main`): it calls `migrate_repos` with exactly the
parsed values and nothing else. -/
def cli_main (env : Env) (args : CliArgs) (s : St) : Except St St :=
  migrate_repos env args.origin_host args.dest_host args.repos args.no_push s

/-- Recognizer for the pre-clean deletion events. -/
def isPreClean : Event → Bool
  | Event.preClean _ => true
  | _ => false

/-- Recognizer for mirror-push command invocations. -/
def isPush : Event → Bool
  | Event.exec c => decide (c.args = ["git", "push", "--mirror"])
  | _ => false

/-- The unconditional actions of one loop iteration, in order: clone,
retarget, optional push, cleanup. -/
def execBlock (origin_host dest_host : String) (no_push : Bool) (repo : String) :
    List Event :=
  [Event.exec (cloneCmd (make_url origin_host repo)),
   Event.exec (setUrlCmd (make_url dest_host repo) (repo_dir repo))] ++
  (if no_push then [] else [Event.exec (pushCmd (repo_dir repo))]) ++
  [Event.cleanup (repo_dir repo)]

/-- The concatenation of the per-repository action blocks, in input
order. -/
def blockTrace (origin_host dest_host : String) (no_push : Bool) :
    List String → List Event
  | [] => []
  | r :: rs => execBlock origin_host dest_host no_push r ++
      blockTrace origin_host dest_host no_push rs

/-- The state after one fully successful loop iteration. -/
def afterStep (origin_host dest_host : String) (no_push : Bool) (repo : String)
    (s : St) : St :=
  { fs := (lastComponent (make_url origin_host repo) ::
        (preCleanStep s (repo_dir repo)).fs).filter (fun p => p != repo_dir repo),
    trace := (preCleanStep s (repo_dir repo)).trace ++
        execBlock origin_host dest_host no_push repo,
    stderrLog := s.stderrLog }

/-- The state after a fully successful run over a list of repositories. -/
def afterRun (origin_host dest_host : String) (no_push : Bool) :
    List String → St → St
  | [], s => s
  | r :: rs, s => afterRun origin_host dest_host no_push rs
      (afterStep origin_host dest_host no_push r s)

/-- An environment in which every external command succeeds. -/
def okEnv : Env := ⟨fun _ => CmdResult.ok, fun _ => ("", "")⟩

/-- An environment in which only the mirror clone of `https://o/b.git`
exits non-zero; everything else succeeds. -/
def env2 : Env :=
  ⟨fun c => if c.args = ["git", "clone", "--mirror", "https://o/b.git"]
      then CmdResult.fail else CmdResult.ok,
   fun _ => ("", "")⟩

/-- An environment in which only the remote retarget to
`https://d/a.git` exits non-zero; everything else succeeds. -/
def env3 : Env :=
  ⟨fun c => if c.args = ["git", "remote", "set-url", "--push", "origin",
        "https://d/a.git"]
      then CmdResult.fail else CmdResult.ok,
   fun _ => ("", "")⟩

/-- An environment in which the executable for the clone of `u` is
missing and every other command exits non-zero. -/
def env4 : Env :=
  ⟨fun c => if c.args = ["git", "clone", "--mirror", "u"]
      then CmdResult.notFound else CmdResult.fail,
   fun _ => ("so", "se")⟩

/-! ### Basic list and string lemmas -/

theorem take_append_le {α : Type _} (n : Nat) (l₁ l₂ : List α) (h : n ≤ l₁.length) :
    (l₁ ++ l₂).take n = l₁.take n :=
  List.take_append_of_le_length h

theorem takeWhile_append_stop {α : Type _} (p : α → Bool) :
    ∀ (l₁ : List α) (y : α) (l₂ : List α), (∀ x ∈ l₁, p x = true) → p y = false →
      (l₁ ++ y :: l₂).takeWhile p = l₁ := by
  intro l₁ y l₂ hall hy
  induction l₁ with
  | nil => simp [List.takeWhile_cons, hy]
  | cons a t ih =>
      have ha : p a = true := hall a (List.mem_cons_self a t)
      have ht : ∀ x ∈ t, p x = true := fun x hx => hall x (List.mem_cons_of_mem a hx)
      simp [List.takeWhile_cons, ha, ih ht]

theorem data_mk (l : List Char) : (String.mk l).data = l := rfl

theorem dataOf_append (a b : String) : (a ++ b).data = a.data ++ b.data :=
  String.data_append a b

theorem filter_self_of_not_mem {d : String} {l : List String} (h : d ∉ l) :
    l.filter (fun p => p != d) = l := by
  induction l with
  | nil => rfl
  | cons a t ih =>
      have hne : a ≠ d := fun he => h (he ▸ List.mem_cons_self a t)
      have ht : d ∉ t := fun hm => h (List.mem_cons_of_mem a hm)
      simp [List.filter_cons, bne_iff_ne, hne, ih ht]

theorem not_mem_filter_ne (d : String) (l : List String) :
    d ∉ l.filter (fun p => p != d) := by
  simp

theorem filter_ne_idem (d : String) (l : List String) :
    (l.filter (fun p => p != d)).filter (fun p => p != d) =
      l.filter (fun p => p != d) := by
  rw [List.filter_filter]
  simp

/-! ### Lemmas on the string helpers of the script -/

theorem rstripSlash_eq_self {s : String} (h : endsWithSlash s = false) :
    rstripSlash s = s := by
  unfold rstripSlash
  unfold endsWithSlash at h
  apply String.ext
  rw [data_mk]
  cases hrev : s.data.reverse with
  | nil =>
      have hs : s.data = [] := by simpa using congrArg List.reverse hrev
      simp [hs]
  | cons c t =>
      rw [hrev] at h
      simp only [List.head?_cons] at h
      have hc : (c == '/') = false := by
        rcases Bool.eq_false_or_eq_true (c == '/') with hb | hb
        · exfalso
          have : c = '/' := by simpa using hb
          subst this
          simp at h
        · exact hb
      rw [List.dropWhile_cons, hc]
      simp only [Bool.false_eq_true, if_false]
      have hs : s.data = t.reverse ++ [c] := by
        simpa using congrArg List.reverse hrev
      rw [hs]
      simp

theorem rstripSlash_append_slash (s : String) :
    rstripSlash (s ++ "/") = rstripSlash s := by
  unfold rstripSlash
  have h1 : (s ++ "/").data = s.data ++ ['/'] := by
    rw [dataOf_append]
  rw [h1, List.reverse_append]
  simp [List.dropWhile_cons]

theorem lastComponent_make_url (host repo : String) (h : noSlash repo) :
    lastComponent (make_url host repo) = repo_dir repo := by
  have hslash : ("/" : String).data = ['/'] := rfl
  have hgit : (".git" : String).data = ['.', 'g', 'i', 't'] := rfl
  have hdata : (make_url host repo).data.reverse =
      (['t', 'i', 'g', '.'] ++ repo.data.reverse) ++
        '/' :: (rstripSlash host).data.reverse := by
    unfold make_url
    rw [dataOf_append, dataOf_append, dataOf_append, hslash, hgit]
    rw [List.reverse_append, List.reverse_append, List.reverse_append]
    simp [List.append_assoc]
  have hall : ∀ x ∈ ['t', 'i', 'g', '.'] ++ repo.data.reverse, (x != '/') = true := by
    intro x hx
    rcases List.mem_append.mp hx with hx | hx
    · fin_cases hx <;> decide
    · have hxr : x ∈ repo.data := List.mem_reverse.mp hx
      have hne : x ≠ '/' := fun he => h (he ▸ hxr)
      simpa [bne_iff_ne] using hne
  unfold lastComponent
  rw [hdata, takeWhile_append_stop _ _ '/' _ hall (by decide)]
  apply String.ext
  rw [data_mk]
  unfold repo_dir
  rw [dataOf_append, hgit, List.reverse_append, List.reverse_reverse]
  rfl

/-! ### Equations for the command effects and `run_command` -/

theorem gitEffect_clone (u : String) (fs : List String) :
    gitEffect (cloneCmd u) fs = lastComponent u :: fs := by
  simp [gitEffect, cloneCmd]

theorem gitEffect_setUrl (u d : String) (fs : List String) :
    gitEffect (setUrlCmd u d) fs = fs := rfl

theorem gitEffect_push (d : String) (fs : List String) :
    gitEffect (pushCmd d) fs = fs := rfl

theorem run_command_of_ok {env : Env} {c : Cmd} (s : St)
    (h : env.result c = CmdResult.ok) :
    run_command env c s =
      Except.ok ⟨gitEffect c s.fs, s.trace ++ [Event.exec c], s.stderrLog⟩ := by
  unfold run_command
  rw [h]

theorem run_command_of_fail {env : Env} {c : Cmd} (s : St)
    (h : env.result c = CmdResult.fail) :
    run_command env c s =
      Except.error ⟨s.fs, s.trace ++ [Event.exec c],
        s.stderrLog ++ [msgFail c, "--- STDOUT ---", (env.out c).1,
          "--- STDERR ---", (env.out c).2]⟩ := by
  unfold run_command
  rw [h]

theorem run_command_of_notFound {env : Env} {c : Cmd} (s : St)
    (h : env.result c = CmdResult.notFound) :
    run_command env c s =
      Except.error ⟨s.fs, s.trace ++ [Event.exec c],
        s.stderrLog ++ [msgNotFound c]⟩ := by
  unfold run_command
  rw [h]

theorem run_command_trace (env : Env) (c : Cmd) (s : St) :
    (stateOf (run_command env c s)).trace = s.trace ++ [Event.exec c] := by
  cases h : env.result c with
  | ok => rw [run_command_of_ok s h]; rfl
  | fail => rw [run_command_of_fail s h]; rfl
  | notFound => rw [run_command_of_notFound s h]; rfl

theorem run_command_fs_of_error (env : Env) (c : Cmd) (s : St)
    (h : isOk (run_command env c s) = false) :
    (stateOf (run_command env c s)).fs = s.fs := by
  cases hr : env.result c with
  | ok => rw [run_command_of_ok s hr] at h ⊢; exact absurd h (by simp [isOk])
  | fail => rw [run_command_of_fail s hr]; rfl
  | notFound => rw [run_command_of_notFound s hr]; rfl

/-! ### Characterization of a fully successful iteration -/

theorem preClean_fs_not_mem (s : St) (d : String) :
    d ∉ (preCleanStep s d).fs := by
  unfold preCleanStep
  by_cases hm : d ∈ s.fs
  · simp [hm]
  · simp [hm]

theorem preClean_stderr (s : St) (d : String) :
    (preCleanStep s d).stderrLog = s.stderrLog := by
  unfold preCleanStep
  by_cases hm : d ∈ s.fs <;> simp [hm]

theorem migrate_step_of_allOk (env : Env) (oh dh : String) (np : Bool)
    (r : String) (s : St) (h : ∀ c, env.result c = CmdResult.ok) :
    migrate_step env oh dh np r s = Except.ok (afterStep oh dh np r s) := by
  cases np with
  | true =>
      simp [migrate_step, run_command, h, gitEffect_clone, gitEffect_setUrl,
        afterStep, execBlock, preClean_stderr, List.append_assoc]
  | false =>
      simp [migrate_step, run_command, h, gitEffect_clone, gitEffect_setUrl,
        gitEffect_push, afterStep, execBlock, preClean_stderr, List.append_assoc]

theorem afterStep_stderr (oh dh : String) (np : Bool) (r : String) (s : St) :
    (afterStep oh dh np r s).stderrLog = s.stderrLog := rfl

theorem preClean_trace_filter (s : St) (d : String) :
    ((preCleanStep s d).trace).filter (fun e => !isPreClean e) =
      s.trace.filter (fun e => !isPreClean e) := by
  unfold preCleanStep
  by_cases hm : d ∈ s.fs <;> simp [hm, isPreClean, List.filter_append]

theorem execBlock_filter (oh dh : String) (np : Bool) (r : String) :
    (execBlock oh dh np r).filter (fun e => !isPreClean e) = execBlock oh dh np r := by
  cases np <;> simp [execBlock, isPreClean]

theorem afterStep_trace_filter (oh dh : String) (np : Bool) (r : String) (s : St) :
    ((afterStep oh dh np r s).trace).filter (fun e => !isPreClean e) =
      s.trace.filter (fun e => !isPreClean e) ++ execBlock oh dh np r := by
  show (((preCleanStep s (repo_dir r)).trace ++ execBlock oh dh np r).filter
      (fun e => !isPreClean e)) = _
  rw [List.filter_append, preClean_trace_filter, execBlock_filter]

theorem afterStep_fs (oh dh : String) (np : Bool) (r : String) (s : St)
    (h : noSlash r) :
    (afterStep oh dh np r s).fs = s.fs.filter (fun p => p != repo_dir r) := by
  by_cases hm : repo_dir r ∈ s.fs
  · simp [afterStep, preCleanStep, hm, lastComponent_make_url _ _ h,
      List.filter_cons, filter_ne_idem]
  · simp [afterStep, preCleanStep, hm, lastComponent_make_url _ _ h,
      List.filter_cons]

theorem afterRun_stderr (oh dh : String) (np : Bool) :
    ∀ (repos : List String) (s : St),
      (afterRun oh dh np repos s).stderrLog = s.stderrLog := by
  intro repos
  induction repos with
  | nil => intro s; rfl
  | cons r rs ih =>
      intro s
      show (afterRun oh dh np rs (afterStep oh dh np r s)).stderrLog = _
      rw [ih, afterStep_stderr]

theorem afterRun_trace_filter (oh dh : String) (np : Bool) :
    ∀ (repos : List String) (s : St),
      ((afterRun oh dh np repos s).trace).filter (fun e => !isPreClean e) =
        s.trace.filter (fun e => !isPreClean e) ++ blockTrace oh dh np repos := by
  intro repos
  induction repos with
  | nil => intro s; simp [afterRun, blockTrace]
  | cons r rs ih =>
      intro s
      show ((afterRun oh dh np rs (afterStep oh dh np r s)).trace).filter
          (fun e => !isPreClean e) = _
      rw [ih, afterStep_trace_filter]
      show _ = s.trace.filter (fun e => !isPreClean e) ++
        (execBlock oh dh np r ++ blockTrace oh dh np rs)
      rw [List.append_assoc]

theorem afterRun_fs_not_mem (oh dh : String) (np : Bool) :
    ∀ (repos : List String) (s : St) (d : String),
      (∀ r ∈ repos, noSlash r) → d ∉ s.fs → d ∉ (afterRun oh dh np repos s).fs := by
  intro repos
  induction repos with
  | nil => intro s d _ hd; exact hd
  | cons r rs ih =>
      intro s d hall hd
      show d ∉ (afterRun oh dh np rs (afterStep oh dh np r s)).fs
      apply ih _ _ (fun x hx => hall x (List.mem_cons_of_mem r hx))
      rw [afterStep_fs _ _ _ _ _ (hall r (List.mem_cons_self r rs))]
      intro hmem
      exact hd (List.mem_of_mem_filter hmem)

theorem afterRun_fs_absent (oh dh : String) (np : Bool) :
    ∀ (repos : List String) (s : St) (r : String),
      (∀ x ∈ repos, noSlash x) → r ∈ repos →
        repo_dir r ∉ (afterRun oh dh np repos s).fs := by
  intro repos
  induction repos with
  | nil => intro s r _ hr; exact absurd hr (List.not_mem_nil r)
  | cons a rs ih =>
      intro s r hall hr
      rcases List.mem_cons.mp hr with he | hm
      · subst he
        show repo_dir r ∉ (afterRun oh dh np rs (afterStep oh dh np r s)).fs
        apply afterRun_fs_not_mem oh dh np rs _ _
          (fun x hx => hall x (List.mem_cons_of_mem r hx))
        rw [afterStep_fs _ _ _ _ _ (hall r (List.mem_cons_self r rs))]
        exact not_mem_filter_ne _ _
      · exact ih _ r (fun x hx => hall x (List.mem_cons_of_mem a hx)) hm

theorem migrate_repos_of_allOk (env : Env) (oh dh : String) (np : Bool)
    (h : ∀ c, env.result c = CmdResult.ok) :
    ∀ (repos : List String) (s : St),
      migrate_repos env oh dh repos np s = Except.ok (afterRun oh dh np repos s) := by
  intro repos
  induction repos with
  | nil => intro s; rfl
  | cons r rs ih =>
      intro s
      show (match migrate_step env oh dh np r s with
        | Except.ok s1 => migrate_repos env oh dh rs np s1
        | Except.error e => Except.error e) = _
      rw [migrate_step_of_allOk env oh dh np r s h]
      exact ih (afterStep oh dh np r s)

/-! ### Sequencing lemmas for the abort-on-failure behaviour -/

theorem isOk_true_eq {x : Except St St} (h : isOk x = true) :
    x = Except.ok (stateOf x) := by
  cases x with
  | ok s => rfl
  | error e => simp [isOk] at h

theorem isOk_false_eq {x : Except St St} (h : isOk x = false) :
    x = Except.error (stateOf x) := by
  cases x with
  | ok s => simp [isOk] at h
  | error e => rfl

theorem migrate_repos_append (env : Env) (oh dh : String) (np : Bool) :
    ∀ (as bs : List String) (s : St),
      migrate_repos env oh dh (as ++ bs) np s =
        (match migrate_repos env oh dh as np s with
         | Except.ok s1 => migrate_repos env oh dh bs np s1
         | Except.error e => Except.error e) := by
  intro as
  induction as with
  | nil => intro bs s; rfl
  | cons a t ih =>
      intro bs s
      show (match migrate_step env oh dh np a s with
        | Except.ok s1 => migrate_repos env oh dh (t ++ bs) np s1
        | Except.error e => Except.error e) =
        (match (match migrate_step env oh dh np a s with
                | Except.ok s1 => migrate_repos env oh dh t np s1
                | Except.error e => Except.error e) with
         | Except.ok s1 => migrate_repos env oh dh bs np s1
         | Except.error e => Except.error e)
      cases migrate_step env oh dh np a s with
      | ok s1 => exact ih bs s1
      | error e => rfl

theorem isPush_false_of_blockTrace_true (oh dh : String) :
    ∀ (repos : List String), ∀ e ∈ blockTrace oh dh true repos, isPush e = false := by
  intro repos
  induction repos with
  | nil => intro e he; exact absurd he (List.not_mem_nil e)
  | cons r rs ih =>
      intro e he
      rcases List.mem_append.mp he with hb | hb
      · simp only [execBlock, if_true, List.append_nil] at hb
        have : e = Event.exec (cloneCmd (make_url oh r)) ∨
            e = Event.exec (setUrlCmd (make_url dh r) (repo_dir r)) ∨
            e = Event.cleanup (repo_dir r) := by simpa using hb
        rcases this with he1 | he1 | he1 <;> subst he1 <;>
          simp [isPush, cloneCmd, setUrlCmd]
      · exact ih e hb

theorem migrate_step_trace_shape (env : Env) (oh dh : String) (np : Bool)
    (r : String) (s : St) :
    ∃ k, (stateOf (migrate_step env oh dh np r s)).trace =
      (preCleanStep s (repo_dir r)).trace ++
        Event.exec (cloneCmd (make_url oh r)) :: k := by
  cases h1 : env.result (cloneCmd (make_url oh r)) with
  | fail =>
      exact ⟨[], by simp [migrate_step, run_command, h1, stateOf]⟩
  | notFound =>
      exact ⟨[], by simp [migrate_step, run_command, h1, stateOf]⟩
  | ok =>
      cases h2 : env.result (setUrlCmd (make_url dh r) (repo_dir r)) with
      | fail =>
          exact ⟨[Event.exec (setUrlCmd (make_url dh r) (repo_dir r))],
            by simp [migrate_step, run_command, h1, h2, stateOf]⟩
      | notFound =>
          exact ⟨[Event.exec (setUrlCmd (make_url dh r) (repo_dir r))],
            by simp [migrate_step, run_command, h1, h2, stateOf]⟩
      | ok =>
          cases np with
          | true =>
              exact ⟨[Event.exec (setUrlCmd (make_url dh r) (repo_dir r)),
                  Event.cleanup (repo_dir r)],
                by simp [migrate_step, run_command, h1, h2, stateOf]⟩
          | false =>
              cases h3 : env.result (pushCmd (repo_dir r)) with
              | ok =>
                  exact ⟨[Event.exec (setUrlCmd (make_url dh r) (repo_dir r)),
                      Event.exec (pushCmd (repo_dir r)), Event.cleanup (repo_dir r)],
                    by simp [migrate_step, run_command, h1, h2, h3, stateOf]⟩
              | fail =>
                  exact ⟨[Event.exec (setUrlCmd (make_url dh r) (repo_dir r)),
                      Event.exec (pushCmd (repo_dir r))],
                    by simp [migrate_step, run_command, h1, h2, h3, stateOf]⟩
              | notFound =>
                  exact ⟨[Event.exec (setUrlCmd (make_url dh r) (repo_dir r)),
                      Event.exec (pushCmd (repo_dir r))],
                    by simp [migrate_step, run_command, h1, h2, h3, stateOf]⟩

theorem migrate_step_error_fs (env : Env) (oh dh : String) (np : Bool)
    (r : String) (s : St)
    (hclone : env.result (cloneCmd (make_url oh r)) = CmdResult.ok)
    (hfail : isOk (migrate_step env oh dh np r s) = false)
    (hns : noSlash r) :
    repo_dir r ∈ (stateOf (migrate_step env oh dh np r s)).fs := by
  cases h2 : env.result (setUrlCmd (make_url dh r) (repo_dir r)) with
  | fail =>
      simp [migrate_step, run_command, hclone, h2, stateOf, gitEffect_clone,
        lastComponent_make_url _ _ hns]
  | notFound =>
      simp [migrate_step, run_command, hclone, h2, stateOf, gitEffect_clone,
        lastComponent_make_url _ _ hns]
  | ok =>
      cases np with
      | true =>
          exfalso
          simp [migrate_step, run_command, hclone, h2, isOk] at hfail
      | false =>
          cases h3 : env.result (pushCmd (repo_dir r)) with
          | ok =>
              exfalso
              simp [migrate_step, run_command, hclone, h2, h3, isOk] at hfail
          | fail =>
              simp [migrate_step, run_command, hclone, h2, h3, stateOf,
                gitEffect_clone, gitEffect_setUrl, lastComponent_make_url _ _ hns]
          | notFound =>
              simp [migrate_step, run_command, hclone, h2, h3, stateOf,
                gitEffect_clone, gitEffect_setUrl, lastComponent_make_url _ _ hns]

theorem msgNotFound_ne_msgFail (c c2 : Cmd) : msgNotFound c ≠ msgFail c2 := by
  intro h
  have hd := congrArg (fun t => t.data.take 6) h
  have h1 : (msgNotFound c).data.take 6 = ['E', 'r', 'r', 'o', 'r', ':'] := by
    unfold msgNotFound
    simp only [dataOf_append, List.append_assoc]
    rw [take_append_le 6 _ _ (by decide)]
    decide
  have h2 : (msgFail c2).data.take 6 = ['E', 'r', 'r', 'o', 'r', ' '] := by
    unfold msgFail
    simp only [dataOf_append, List.append_assoc]
    rw [take_append_le 6 _ _ (by decide)]
    decide
  simp only [h1, h2] at hd
  exact absurd hd (by decide)

/-! ### Claim theorems -/

/-- C1: on the success path the external commands run in exactly the order
mirror clone, remote retarget (inside the cloned directory), mirror push
unless `no_push`, then recursive deletion of the local mirror directory;
repositories are handled strictly one at a time in input order, each block
completing before the next begins.  The conditional pre-clean deletions
(claim C6) are the only other events; they are excluded here by the
`isPreClean` filter. -/
theorem C1_sequential_command_order (env : Env) (oh dh : String) (np : Bool)
    (repos : List String) (fs : List String)
    (h : ∀ c, env.result c = CmdResult.ok) :
    ∃ s2, migrate_repos env oh dh repos np (initSt fs) = Except.ok s2 ∧
      s2.trace.filter (fun e => !isPreClean e) = blockTrace oh dh np repos := by
  refine ⟨afterRun oh dh np repos (initSt fs),
    migrate_repos_of_allOk env oh dh np h repos _, ?_⟩
  rw [afterRun_trace_filter]
  show (initSt fs).trace.filter (fun e => !isPreClean e) ++ _ = _
  simp [initSt]

/-- C1 witness: a concrete all-success run over two repositories. -/
theorem C1_sequential_command_order_witness :
    ∃ s2, migrate_repos okEnv "https://o" "https://d" ["a", "b"] false
        (initSt []) = Except.ok s2 ∧
      s2.trace.filter (fun e => !isPreClean e) =
        blockTrace "https://o" "https://d" false ["a", "b"] :=
  C1_sequential_command_order okEnv "https://o" "https://d" false ["a", "b"] []
    (fun _ => rfl)

/-- C4: with no trailing path separator on either base, the constructed
origin and destination URLs are exactly base ++ "/" ++ name ++ ".git", for
each name in input order (`List.map` preserves order). -/
theorem C4_url_construction (oh dh : String) (repos : List String)
    (h1 : endsWithSlash oh = false) (h2 : endsWithSlash dh = false) :
    repos.map (fun r => make_url oh r) =
      repos.map (fun r => oh ++ "/" ++ r ++ ".git") ∧
    repos.map (fun r => make_url dh r) =
      repos.map (fun r => dh ++ "/" ++ r ++ ".git") := by
  constructor
  · have hf : (fun r => make_url oh r) = fun r => oh ++ "/" ++ r ++ ".git" := by
      funext r
      unfold make_url
      rw [rstripSlash_eq_self h1]
    rw [hf]
  · have hf : (fun r => make_url dh r) = fun r => dh ++ "/" ++ r ++ ".git" := by
      funext r
      unfold make_url
      rw [rstripSlash_eq_self h2]
    rw [hf]

/-- C4 witness: concrete bases without trailing separators. -/
theorem C4_url_construction_witness :
    ["a", "b"].map (fun r => make_url "https://o" r) =
      ["a", "b"].map (fun r => "https://o" ++ "/" ++ r ++ ".git") ∧
    ["a", "b"].map (fun r => make_url "https://d" r) =
      ["a", "b"].map (fun r => "https://d" ++ "/" ++ r ++ ".git") :=
  C4_url_construction "https://o" "https://d" ["a", "b"] rfl rfl

/-- C5: URL construction is invariant under appending a trailing slash to
the base, for the origin and the destination alike (both go through
`make_url`). -/
theorem C5_trailing_slash_idempotent (host repo : String) :
    make_url (host ++ "/") repo = make_url host repo := by
  unfold make_url
  rw [rstripSlash_append_slash]

/-- C9: the importable function and the CLI entry point coincide: `main`
passes the parsed `--origin-host`, `--dest-host`, `--repos` and
`--no-push` values to `migrate_repos` unchanged, and `migrate_repos` does
no argument parsing of its own (it consumes only these four values). -/
theorem C9_cli_module_equivalence (env : Env) (oh dh : String)
    (repos : List String) (np : Bool) (s : St) :
    cli_main env ⟨oh, dh, repos, np⟩ s = migrate_repos env oh dh repos np s := rfl

/-- C10: an empty repository list performs no external command, touches no
filesystem entry, and the run completes normally with exit status 0. -/
theorem C10_empty_repo_list (env : Env) (oh dh : String) (np : Bool) (s : St) :
    migrate_repos env oh dh [] np s = Except.ok s ∧
    (stateOf (migrate_repos env oh dh [] np s)).trace = s.trace ∧
    (stateOf (migrate_repos env oh dh [] np s)).fs = s.fs ∧
    exitCode (migrate_repos env oh dh [] np s) = 0 :=
  ⟨rfl, rfl, rfl, rfl⟩

/-- C2: the run aborts at the first failing command with exit status 1:
with every repository before `b` completed (normal-return prefix run), a
failure inside the procedure for `b` makes the whole run terminate in
exactly the state of that failing step; the repositories after `b` are
never touched (the run equals the run of the list truncated after `b`);
and a normal return of a run means the head repository's procedure and the
whole remaining run both returned normally, with exit status 0. -/
theorem C2_fatal_abort (env : Env) (oh dh : String) (np : Bool) (s0 : St) :
    (∀ (as : List String) (b : String) (cs : List String),
      isOk (migrate_repos env oh dh as np s0) = true →
      isOk (migrate_step env oh dh np b
        (stateOf (migrate_repos env oh dh as np s0))) = false →
      migrate_repos env oh dh (as ++ b :: cs) np s0 =
        migrate_step env oh dh np b
          (stateOf (migrate_repos env oh dh as np s0)) ∧
      migrate_repos env oh dh (as ++ b :: cs) np s0 =
        migrate_repos env oh dh (as ++ [b]) np s0 ∧
      exitCode (migrate_repos env oh dh (as ++ b :: cs) np s0) = 1) ∧
    (∀ (r : String) (rs : List String),
      isOk (migrate_repos env oh dh (r :: rs) np s0) = true →
      isOk (migrate_step env oh dh np r s0) = true ∧
      isOk (migrate_repos env oh dh rs np
        (stateOf (migrate_step env oh dh np r s0))) = true ∧
      exitCode (migrate_repos env oh dh (r :: rs) np s0) = 0) := by
  constructor
  · intro as b cs h1 h2
    have hpre := isOk_true_eq h1
    have hstep := isOk_false_eq h2
    have key : ∀ cs2 : List String,
        migrate_repos env oh dh (b :: cs2) np
          (stateOf (migrate_repos env oh dh as np s0)) =
        migrate_step env oh dh np b
          (stateOf (migrate_repos env oh dh as np s0)) := by
      intro cs2
      show (match migrate_step env oh dh np b
          (stateOf (migrate_repos env oh dh as np s0)) with
        | Except.ok s1 => migrate_repos env oh dh cs2 np s1
        | Except.error e => Except.error e) = _
      rw [hstep]
    have h3 : migrate_repos env oh dh (as ++ b :: cs) np s0 =
        migrate_step env oh dh np b
          (stateOf (migrate_repos env oh dh as np s0)) := by
      rw [migrate_repos_append env oh dh np as (b :: cs) s0, hpre]
      exact key cs
    have h4 : migrate_repos env oh dh (as ++ [b]) np s0 =
        migrate_step env oh dh np b
          (stateOf (migrate_repos env oh dh as np s0)) := by
      rw [migrate_repos_append env oh dh np as [b] s0, hpre]
      exact key []
    refine ⟨h3, h3.trans h4.symm, ?_⟩
    rw [h3, hstep]
    rfl
  · intro r rs h
    cases hs : migrate_step env oh dh np r s0 with
    | error e =>
        exfalso
        have : migrate_repos env oh dh (r :: rs) np s0 = Except.error e := by
          show (match migrate_step env oh dh np r s0 with
            | Except.ok s1 => migrate_repos env oh dh rs np s1
            | Except.error e => Except.error e) = _
          rw [hs]
        rw [this] at h
        simp [isOk] at h
    | ok s1 =>
        have hrun : migrate_repos env oh dh (r :: rs) np s0 =
            migrate_repos env oh dh rs np s1 := by
          show (match migrate_step env oh dh np r s0 with
            | Except.ok s1 => migrate_repos env oh dh rs np s1
            | Except.error e => Except.error e) = _
          rw [hs]
        refine ⟨rfl, ?_, ?_⟩
        · show isOk (migrate_repos env oh dh rs np s1) = true
          rw [← hrun]
          exact h
        · rw [isOk_true_eq h]
          rfl

/-- C3: with `no_push` set, a successful run performs no mirror-push
invocation at all, still performs the mirror clone and the remote
retargeting for every repository in order, and leaves no repository's
local mirror directory behind. -/
theorem C3_skip_publish (env : Env) (oh dh : String) (repos : List String)
    (fs : List String) (h : ∀ c, env.result c = CmdResult.ok)
    (hns : ∀ r ∈ repos, noSlash r) :
    ∃ s2, migrate_repos env oh dh repos true (initSt fs) = Except.ok s2 ∧
      (∀ e ∈ s2.trace, isPush e = false) ∧
      s2.trace.filter (fun e => !isPreClean e) = blockTrace oh dh true repos ∧
      (∀ r ∈ repos, repo_dir r ∉ s2.fs) := by
  have hfil : ((afterRun oh dh true repos (initSt fs)).trace).filter
      (fun e => !isPreClean e) = blockTrace oh dh true repos := by
    rw [afterRun_trace_filter]
    show (initSt fs).trace.filter (fun e => !isPreClean e) ++ _ = _
    simp [initSt]
  refine ⟨afterRun oh dh true repos (initSt fs),
    migrate_repos_of_allOk env oh dh true h repos _, ?_, hfil, ?_⟩
  · intro e he
    cases hev : isPush e with
    | false => rfl
    | true =>
        exfalso
        have hnp : (!isPreClean e) = true := by
          cases e with
          | preClean p => simp [isPush] at hev
          | exec c => rfl
          | cleanup p => rfl
        have hmem : e ∈ ((afterRun oh dh true repos (initSt fs)).trace).filter
            (fun x => !isPreClean x) := List.mem_filter.mpr ⟨he, hnp⟩
        rw [hfil] at hmem
        have hfalse := isPush_false_of_blockTrace_true oh dh repos e hmem
        rw [hev] at hfalse
        exact absurd hfalse (by decide)
  · intro r hr
    exact afterRun_fs_absent oh dh true repos (initSt fs) r hns hr

/-- C6: when an entry named `repo + ".git"` exists at the start of an
iteration, the iteration first deletes it and only then invokes the mirror
clone (the two events open the iteration's trace in that order), so the
clone starts with no pre-existing entry at that path. -/
theorem C6_preclean_invariant (env : Env) (oh dh : String) (np : Bool)
    (r : String) (s : St) (hm : repo_dir r ∈ s.fs) :
    (∃ k, (stateOf (migrate_step env oh dh np r s)).trace =
      s.trace ++ Event.preClean (repo_dir r) ::
        Event.exec (cloneCmd (make_url oh r)) :: k) ∧
    repo_dir r ∉ (preCleanStep s (repo_dir r)).fs := by
  constructor
  · obtain ⟨k, hk⟩ := migrate_step_trace_shape env oh dh np r s
    refine ⟨k, ?_⟩
    rw [hk]
    unfold preCleanStep
    rw [if_pos hm]
    simp
  · exact preClean_fs_not_mem s (repo_dir r)

/-- C7: if the clone for repository `r` succeeded but a later step of its
procedure failed, the aborted run terminates in the failing step's state
and the local mirror directory `r + ".git"` is still present in that final
filesystem — the cleanup deletion never runs on the failure path. -/
theorem C7_cleanup_skipped_on_failure (env : Env) (oh dh : String) (np : Bool)
    (as : List String) (r : String) (cs : List String) (s0 : St)
    (h1 : isOk (migrate_repos env oh dh as np s0) = true)
    (hclone : env.result (cloneCmd (make_url oh r)) = CmdResult.ok)
    (h2 : isOk (migrate_step env oh dh np r
      (stateOf (migrate_repos env oh dh as np s0))) = false)
    (hns : noSlash r) :
    migrate_repos env oh dh (as ++ r :: cs) np s0 =
      Except.error (stateOf (migrate_step env oh dh np r
        (stateOf (migrate_repos env oh dh as np s0)))) ∧
    repo_dir r ∈ (stateOf (migrate_step env oh dh np r
      (stateOf (migrate_repos env oh dh as np s0)))).fs ∧
    exitCode (migrate_repos env oh dh (as ++ r :: cs) np s0) = 1 := by
  have hpre := isOk_true_eq h1
  have hstep := isOk_false_eq h2
  have key : migrate_repos env oh dh (r :: cs) np
      (stateOf (migrate_repos env oh dh as np s0)) =
      Except.error (stateOf (migrate_step env oh dh np r
        (stateOf (migrate_repos env oh dh as np s0)))) := by
    show (match migrate_step env oh dh np r
        (stateOf (migrate_repos env oh dh as np s0)) with
      | Except.ok s1 => migrate_repos env oh dh cs np s1
      | Except.error e => Except.error e) = _
    rw [hstep]
    rfl
  have h3 : migrate_repos env oh dh (as ++ r :: cs) np s0 =
      Except.error (stateOf (migrate_step env oh dh np r
        (stateOf (migrate_repos env oh dh as np s0)))) := by
    rw [migrate_repos_append env oh dh np as (r :: cs) s0, hpre]
    exact key
  refine ⟨h3, migrate_step_error_fs env oh dh np r _ hclone h2 hns, ?_⟩
  rw [h3]
  rfl

/-- C8: a missing executable aborts the run immediately with exit status 1
and its own diagnostic line; a command that runs but exits non-zero also
aborts with exit status 1 but with a different diagnostic (echoing the
failing command and its captured output); the two diagnostics are never
equal. -/
theorem C8_tool_not_found_distinct (env : Env) (c c2 : Cmd) (s s2 : St)
    (h1 : env.result c = CmdResult.notFound)
    (h2 : env.result c2 = CmdResult.fail) :
    run_command env c s = Except.error
      ⟨s.fs, s.trace ++ [Event.exec c], s.stderrLog ++ [msgNotFound c]⟩ ∧
    exitCode (run_command env c s) = 1 ∧
    run_command env c2 s2 = Except.error
      ⟨s2.fs, s2.trace ++ [Event.exec c2], s2.stderrLog ++
        [msgFail c2, "--- STDOUT ---", (env.out c2).1,
         "--- STDERR ---", (env.out c2).2]⟩ ∧
    exitCode (run_command env c2 s2) = 1 ∧
    msgNotFound c ≠ msgFail c2 := by
  refine ⟨run_command_of_notFound s h1, ?_,
    run_command_of_fail s2 h2, ?_, msgNotFound_ne_msgFail c c2⟩
  · rw [run_command_of_notFound s h1]
    rfl
  · rw [run_command_of_fail s2 h2]
    rfl

/-- C2 witness: `["a", "b", "c"]` with the clone of `b` failing — the run
equals the run truncated after `b` and exits 1; a fully successful
two-repository run exits 0. -/
theorem C2_fatal_abort_witness :
    migrate_repos env2 "https://o" "https://d" ["a", "b", "c"] false (initSt []) =
      migrate_repos env2 "https://o" "https://d" ["a", "b"] false (initSt []) ∧
    exitCode (migrate_repos env2 "https://o" "https://d" ["a", "b", "c"] false
      (initSt [])) = 1 ∧
    exitCode (migrate_repos okEnv "https://o" "https://d" ["a", "b"] false
      (initSt [])) = 0 := by
  have hA := (C2_fatal_abort env2 "https://o" "https://d" false (initSt [])).1
    ["a"] "b" ["c"] (by decide) (by decide)
  have hB := (C2_fatal_abort okEnv "https://o" "https://d" false (initSt [])).2
    "a" ["b"] (by decide)
  exact ⟨hA.2.1, hA.2.2, hB.2.2⟩

/-- C3 witness: a concrete `no_push` run over one repository, starting
with a stale mirror directory on disk. -/
theorem C3_skip_publish_witness :
    ∃ s2, migrate_repos okEnv "https://o" "https://d" ["a"] true
        (initSt ["a.git"]) = Except.ok s2 ∧
      (∀ e ∈ s2.trace, isPush e = false) ∧
      s2.trace.filter (fun e => !isPreClean e) =
        blockTrace "https://o" "https://d" true ["a"] ∧
      (∀ r ∈ (["a"] : List String), repo_dir r ∉ s2.fs) :=
  C3_skip_publish okEnv "https://o" "https://d" ["a"] ["a.git"] (fun _ => rfl)
    (by
      intro r hr
      rw [List.mem_singleton] at hr
      subst hr
      decide)

/-- C6 witness: a concrete iteration starting with a stale `a.git` entry. -/
theorem C6_preclean_invariant_witness :
    (∃ k, (stateOf (migrate_step okEnv "https://o" "https://d" false "a"
        ⟨["a.git"], [], []⟩)).trace =
      ([] : List Event) ++ Event.preClean (repo_dir "a") ::
        Event.exec (cloneCmd (make_url "https://o" "a")) :: k) ∧
    repo_dir "a" ∉ (preCleanStep ⟨["a.git"], [], []⟩ (repo_dir "a")).fs :=
  C6_preclean_invariant okEnv "https://o" "https://d" false "a"
    ⟨["a.git"], [], []⟩ (by decide)

/-- C7 witness: the retarget step for `a` fails after a successful clone;
the mirror directory `a.git` is left in the final state. -/
theorem C7_cleanup_skipped_on_failure_witness :
    migrate_repos env3 "https://o" "https://d" ["a"] false (initSt []) =
      Except.error (stateOf (migrate_step env3 "https://o" "https://d" false "a"
        (stateOf (migrate_repos env3 "https://o" "https://d" [] false
          (initSt []))))) ∧
    repo_dir "a" ∈ (stateOf (migrate_step env3 "https://o" "https://d" false "a"
      (stateOf (migrate_repos env3 "https://o" "https://d" [] false
        (initSt []))))).fs ∧
    exitCode (migrate_repos env3 "https://o" "https://d" ["a"] false
      (initSt [])) = 1 :=
  C7_cleanup_skipped_on_failure env3 "https://o" "https://d" false [] "a" []
    (initSt []) (by decide) (by decide) (by decide) (by decide)

/-- C8 witness: concrete missing-executable and non-zero-exit commands
with their distinct diagnostics. -/
theorem C8_tool_not_found_distinct_witness :
    run_command env4 (cloneCmd "u") (initSt []) = Except.error
      ⟨[], [Event.exec (cloneCmd "u")], [msgNotFound (cloneCmd "u")]⟩ ∧
    exitCode (run_command env4 (cloneCmd "u") (initSt [])) = 1 ∧
    run_command env4 (pushCmd "d") (initSt []) = Except.error
      ⟨[], [Event.exec (pushCmd "d")],
       [msgFail (pushCmd "d"), "--- STDOUT ---", "so", "--- STDERR ---", "se"]⟩ ∧
    exitCode (run_command env4 (pushCmd "d") (initSt [])) = 1 ∧
    msgNotFound (cloneCmd "u") ≠ msgFail (pushCmd "d") :=
  C8_tool_not_found_distinct env4 (cloneCmd "u") (pushCmd "d") (initSt [])
    (initSt []) (by decide) (by decide)
